import Mathlib

/-!
Verification of the message normalization and dispatch pipeline of the
xia_adapter repository (Go). Go strings handled byte-wise by the source
(`SplitLongText`) are embedded as lists of byte values (`List Nat`);
strings handled as opaque values are embedded as `String`. Go
`map[string]string` and `map[string]interface\x7b\x7d` values are embedded
as association lists with map-update semantics (`aset`, `adel`, `aget`).
-/

namespace XiaAdapter

/-- Lookup in an association list, mirroring a read `m[k]` of a Go map. -/
def aget {α : Type} (l : List (String × α)) (k : String) : Option α :=
  match l with
  | [] => none
  | (k', v) :: t => if k' = k then some v else aget t k

/-- Map update `m[k] = v` on the association-list embedding of a Go map. -/
def aset {α : Type} (k : String) (v : α) (l : List (String × α)) : List (String × α) :=
  (k, v) :: l.filter (fun p => ¬ p.1 = k)

/-- Map deletion `delete(m, k)` on the association-list embedding. -/
def adel {α : Type} (k : String) (l : List (String × α)) : List (String × α) :=
  l.filter (fun p => ¬ p.1 = k)

theorem aget_adel_self {α : Type} (k : String) (l : List (String × α)) :
    aget (adel k l) k = none := by
  induction l with
  | nil => rfl
  | cons p t ih =>
    rw [adel, List.filter_cons]
    by_cases hp : p.1 = k
    · have h1 : decide (¬ p.1 = k) = false := by simp [hp]
      rw [h1]
      simpa [adel] using ih
    · have h1 : decide (¬ p.1 = k) = true := by simp [hp]
      rw [h1]
      simpa [aget, hp, adel] using ih

theorem aget_adel_ne {α : Type} (k k' : String) (l : List (String × α))
    (h : ¬ k = k') : aget (adel k l) k' = aget l k' := by
  induction l with
  | nil => rfl
  | cons p t ih =>
    rw [adel, List.filter_cons]
    by_cases hp : p.1 = k
    · have h1 : decide (¬ p.1 = k) = false := by simp [hp]
      rw [h1]
      have hpk' : ¬ p.1 = k' := fun hc => h (hp.symm.trans hc)
      simp only [Bool.false_eq_true, if_false, aget, hpk', if_neg hpk']
      simpa [adel] using ih
    · have h1 : decide (¬ p.1 = k) = true := by simp [hp]
      rw [h1]
      simp only [if_true, aget]
      by_cases hp' : p.1 = k'
      · rw [if_pos hp', if_pos hp']
      · rw [if_neg hp', if_neg hp']
        simpa [adel] using ih

theorem aget_aset_self {α : Type} (k : String) (v : α) (l : List (String × α)) :
    aget (aset k v l) k = some v := by
  simp [aget, aset]

theorem aget_aset_ne {α : Type} (k k' : String) (v : α) (l : List (String × α))
    (h : ¬ k = k') : aget (aset k v l) k' = aget l k' := by
  rw [aset, aget, if_neg h]
  exact aget_adel_ne k k' l h

/-- Hex digit test used by the UUID shape check (lower-case letters only,
mirroring the character class of the Go regular expression). -/
def isHexDigit (c : Char) : Bool :=
  ('0' ≤ c ∧ c ≤ '9') ∨ ('a' ≤ c ∧ c ≤ 'f')

/-- Embedding of the source function isUUID: the input is lower-cased and
matched against the anchored 8-4-4-4-12 hexadecimal grouped form. -/
def isUUID (s : String) : Bool :=
  let cs := s.toList.map Char.toLower
  cs.length = 36 ∧
  (List.range 36).all (fun i =>
    if i = 8 ∨ i = 13 ∨ i = 18 ∨ i = 23 then cs.getD i ' ' = '-'
    else isHexDigit (cs.getD i ' '))

/-- Boundary test of SplitLongText: the source compares the single byte
`text[i-1]`, converted to a rune, against seven literal characters. The
three CJK literals have code points 12290, 65281 and 65311, above any
byte value. -/
def isBoundaryByte (b : Nat) : Bool :=
  b = 10 ∨ b = 12290 ∨ b = 65281 ∨ b = 65311 ∨ b = 46 ∨ b = 33 ∨ b = 63

/-- Backward search of SplitLongText: starting at byte index i and moving
down while i > lo, return the first i whose preceding byte is a boundary
byte; return ep (the raw window edge) if none is found. -/
def findCut (text : List Nat) (lo ep : Nat) : Nat → Nat
  | 0 => ep
  | (i+1) =>
    if i + 1 > lo then
      (if i + 1 < text.length then
        (if isBoundaryByte (text.getD i 0) then i + 1 else findCut text lo ep i)
       else findCut text lo ep i)
    else ep

/-- Chunking loop of SplitLongText: from offset start, take windows of at
most m bytes, moving each non-final cut back to the nearest boundary byte
found between the window midpoint and its right edge. Fuel bounds the
recursion; text.length steps always suffice when 0 < m. -/
def splitLoop (text : List Nat) (m : Nat) : Nat → Nat → List (List Nat)
  | 0, _ => []
  | (fuel+1), start =>
    if start < text.length then
      let e0 := if start + m > text.length then text.length else start + m
      let e1 := if e0 < text.length then findCut text (start + m / 2) e0 e0 else e0
      ((text.drop start).take (e1 - start)) :: splitLoop text m fuel e1
    else []

/-- Embedding of the source function SplitLongText over the byte values of
the Go string. A non-positive maxLen is replaced by the default 2048; a
text no longer than maxLen is returned as a single chunk. -/
def splitLongText (text : List Nat) (maxLen : Int) : List (List Nat) :=
  let m : Nat := if maxLen ≤ 0 then 2048 else maxLen.toNat
  if text.length ≤ m then [text]
  else splitLoop text m text.length 0

theorem findCut_cases (text : List Nat) (lo ep : Nat) :
    ∀ i, findCut text lo ep i = ep ∨
      (lo < findCut text lo ep i ∧ findCut text lo ep i ≤ i) := by
  intro i
  induction i with
  | zero => exact Or.inl rfl
  | succ n ih =>
    simp only [findCut]
    by_cases h1 : n + 1 > lo
    · rw [if_pos h1]
      by_cases h2 : n + 1 < text.length
      · rw [if_pos h2]
        by_cases h3 : isBoundaryByte (text.getD n 0)
        · rw [if_pos h3]
          exact Or.inr ⟨h1, Nat.le_refl _⟩
        · rw [if_neg h3]
          rcases ih with h | ⟨ha, hb⟩
          · exact Or.inl h
          · exact Or.inr ⟨ha, Nat.le_succ_of_le hb⟩
      · rw [if_neg h2]
        rcases ih with h | ⟨ha, hb⟩
        · exact Or.inl h
        · exact Or.inr ⟨ha, Nat.le_succ_of_le hb⟩
    · rw [if_neg h1]
      exact Or.inl rfl

theorem splitLoop_flatten (text : List Nat) (m : Nat) (hm : 0 < m) :
    ∀ fuel start, text.length - start ≤ fuel →
      (splitLoop text m fuel start).flatten = text.drop start := by
  intro fuel
  induction fuel with
  | zero =>
    intro start h
    have hls : text.length ≤ start := by omega
    simp [splitLoop, List.drop_eq_nil_of_le hls]
  | succ n ih =>
    intro start h
    simp only [splitLoop]
    by_cases hs : start < text.length
    · rw [if_pos hs]
      set e0 := if start + m > text.length then text.length else start + m with he0
      have he0lb : start + 1 ≤ e0 := by
        by_cases hc : start + m > text.length
        · simp only [he0, if_pos hc]; omega
        · simp only [he0, if_neg hc]; omega
      set e1 := if e0 < text.length then findCut text (start + m / 2) e0 e0 else e0 with he1
      have he1lb : start + 1 ≤ e1 := by
        by_cases hc : e0 < text.length
        · rw [he1, if_pos hc]
          rcases findCut_cases text (start + m / 2) e0 e0 with hfc | ⟨hfc, _⟩
          · omega
          · omega
        · rw [he1, if_neg hc]; exact he0lb
      have hrec : (splitLoop text m n e1).flatten = text.drop e1 := ih e1 (by omega)
      rw [List.flatten_cons, hrec]
      have hdd : text.drop e1 = (text.drop start).drop (e1 - start) := by
        rw [List.drop_drop]
        congr 1
        omega
      rw [hdd, List.take_append_drop]
    · rw [if_neg hs]
      have hls : text.length ≤ start := by omega
      simp [List.drop_eq_nil_of_le hls]

/-- Unified message structure of the source (queue.go). Go `map[string]string`
metadata is embedded as an association list; a nil map is the empty list. -/
structure Message where
  Platform : String
  SessionID : String
  UserID : String
  Content : String
  MessageType : String
  Metadata : List (String × String)
  Timestamp : Int
deriving DecidableEq, Repr

/-- Agent-agnostic request shape of the source (converter.go). Contexts
entries are loosely-typed objects, embedded as JSON association lists. -/
inductive JValue where
  | str (s : String)
  | jbool (b : Bool)
  | arr (a : List JValue)
  | obj (o : List (String × JValue))
deriving Repr

structure AgentRequest where
  Query : String
  ImageURLs : List String
  SessionID : String
  UserID : String
  SystemPrompt : String
  Contexts : List (List (String × JValue))
  Metadata : List (String × String)
deriving Repr

structure AgentResponse where
  Content : String
  ImageURLs : List String
  Metadata : List (String × String)
deriving DecidableEq, Repr

/-- Platform tag constants of the source. -/
def PlatformLark : String := "lark"

def PlatformWeCom : String := "wecom"

/-- Base64 alphabet test mirroring Go encoding/base64 StdEncoding. -/
def isB64Char (c : Char) : Bool :=
  ('A' ≤ c ∧ c ≤ 'Z') ∨ ('a' ≤ c ∧ c ≤ 'z') ∨ ('0' ≤ c ∧ c ≤ '9') ∨ c = '+' ∨ c = '/'

/-- Success predicate of Go base64.StdEncoding.DecodeString: carriage
returns and newlines are ignored, the remaining length is a multiple of
four, at most two padding characters appear and only at the end, and all
other characters come from the standard alphabet. -/
def goStdBase64Ok (s : String) : Bool :=
  let t := s.toList.filter (fun c => ¬ c = '\r' ∧ ¬ c = '\n')
  let p := (t.reverse.takeWhile (fun c => c = '=')).length
  let body := t.take (t.length - p)
  (t.length % 4 = 0) ∧ p ≤ 2 ∧ body.all isB64Char

/-- Embedding of the source function extractBase64Image: a data URI with
exactly one comma yields the payload after the comma; otherwise a string
that decodes as base64 and is longer than 100 bytes is returned whole;
anything else is an error (none). -/
def extractBase64Image (content : String) : Option String :=
  let dataURI : Option String :=
    if content.startsWith "data:image/" then
      let parts := content.splitOn ","
      if parts.length = 2 then some (parts.getD 1 "") else none
    else none
  match dataURI with
  | some x => some x
  | none =>
    if goStdBase64Ok content ∧ 100 < content.utf8ByteSize then some content else none

/-- Image-shape test appearing inline at three places in the source:
content starting with a data-URI marker, or longer than 100 bytes and not
starting with an http scheme. Go len on a string counts bytes. -/
def looksLikeBase64Image (content : String) : Bool :=
  content.startsWith "data:image/" ∨
    (100 < content.utf8ByteSize ∧ ¬ content.startsWith "http")

/-- Whitespace test of Go unicode.IsSpace, used by strings.TrimSpace. -/
def goIsSpace (c : Char) : Bool :=
  c = ' ' ∨ c = '\t' ∨ c = '\n' ∨ c.toNat = 11 ∨ c.toNat = 12 ∨ c = '\r' ∨
    c.toNat = 133 ∨ c.toNat = 160 ∨ c.toNat = 5760 ∨
    (8192 ≤ c.toNat ∧ c.toNat ≤ 8202) ∨ c.toNat = 8232 ∨ c.toNat = 8233 ∨
    c.toNat = 8239 ∨ c.toNat = 8287 ∨ c.toNat = 12288

/-- Embedding of Go strings.TrimSpace. -/
def goTrimSpace (s : String) : String :=
  String.mk (((s.toList.dropWhile goIsSpace).reverse.dropWhile goIsSpace).reverse)

/-- Embedding of the source function NormalizeContent: text content is
trimmed and line endings are canonicalized to a single newline; image
content that is a long opaque string without URL scheme or data-URI marker
receives a default data-URI marker. -/
def normalizeContent (msg : Message) : Message :=
  let msg1 :=
    if msg.MessageType = "text" then
      { msg with Content := ((goTrimSpace msg.Content).replace "\r\n" "\n").replace "\r" "\n" }
    else msg
  if msg1.MessageType = "image" then
    if ¬ msg1.Content.startsWith "http" ∧ ¬ msg1.Content.startsWith "data:image/" ∧
        100 < msg1.Content.utf8ByteSize then
      { msg1 with Content := "data:image/png;base64," ++ msg1.Content }
    else msg1
  else msg1

/-- Metadata copy loop of ToAgentRequest: every entry is copied except a
conversation_id whose value is not a valid UUID, which is skipped. -/
def copyMetaLoop (init : List (String × String)) (src : List (String × String)) :
    List (String × String) :=
  List.foldl
    (fun acc kv =>
      if kv.1 = "conversation_id" then
        (if isUUID kv.2 then aset kv.1 kv.2 acc else acc)
      else aset kv.1 kv.2 acc)
    init src

/-- Heap cells that ToAgentRequest can read or write through its pointer
and map references: the input message (reachable through the *Message
argument) and the metadata map of the request under construction.
Keeping both in one record lets the frame theorem state that only the
request cell is written. -/
structure ConvHeap where
  msgCell : Message
  reqMeta : List (String × String)
deriving DecidableEq, Repr

/-- Embedding of the source function ToAgentRequest, statement by
statement. The returned ConvHeap holds the final contents of the two
metadata maps: all writes of the body target the request map. -/
def toAgentRequestH (msg : Message) : AgentRequest × ConvHeap :=
  let h0 : ConvHeap := { msgCell := msg, reqMeta := [] }
  let h1 : ConvHeap := { h0 with reqMeta := copyMetaLoop h0.reqMeta h0.msgCell.Metadata }
  let step2 : List String × ConvHeap :=
    if msg.MessageType = "image" then
      let imgs1 : List String :=
        if looksLikeBase64Image msg.Content then
          match extractBase64Image msg.Content with
          | some imageData => [imageData]
          | none => []
        else if msg.Content.startsWith "http" then [msg.Content]
        else []
      match aget h1.msgCell.Metadata "media_id" with
      | some mediaID =>
        (imgs1, { h1 with reqMeta := aset "platform" msg.Platform (aset "media_id" mediaID h1.reqMeta) })
      | none => (imgs1, h1)
    else ([], h1)
  let imgs2 := step2.1
  let h2 := step2.2
  let imgs3 : List String :=
    if msg.MessageType = "text" then
      match aget h2.msgCell.Metadata "image_key" with
      | some imageKey =>
        if ¬ imageKey = "" ∧ looksLikeBase64Image msg.Content then imgs2 ++ [msg.Content]
        else imgs2
      | none => imgs2
    else imgs2
  ({ Query := msg.Content, ImageURLs := imgs3, SessionID := msg.SessionID,
     UserID := msg.UserID, SystemPrompt := "", Contexts := [],
     Metadata := h2.reqMeta }, h2)

/-- Embedding of ToAgentRequest as used by callers. -/
def toAgentRequest (msg : Message) : AgentRequest :=
  (toAgentRequestH msg).1

/-- Embedding of Go strings.Join. -/
def strJoin (sep : String) : List String → String
  | [] => ""
  | [x] => x
  | x :: xs => x ++ sep ++ strJoin sep xs

/-- Embedding of the source function FromAgentResponse: the reply inherits
platform, session and user from the original message; a non-empty image
list turns the reply into an image message carrying the first image, the
rest being comma-joined under the additional_images metadata key. -/
def fromAgentResponse (resp : AgentResponse) (originalMsg : Message) : Message :=
  let base : Message :=
    { Platform := originalMsg.Platform, SessionID := originalMsg.SessionID,
      UserID := originalMsg.UserID, Content := resp.Content,
      MessageType := "text", Metadata := resp.Metadata, Timestamp := 0 }
  match resp.ImageURLs with
  | [] => base
  | img0 :: rest =>
    let withImg := { base with MessageType := "image", Content := img0 }
    if rest.isEmpty then withImg
    else { withImg with
           Metadata := aset "additional_images" (strJoin "," rest) withImg.Metadata }

/-- Hexadecimal digit character for JSON escaping. -/
def hexChar (n : Nat) : Char :=
  if n < 10 then Char.ofNat (48 + n) else Char.ofNat (87 + n)

/-- Escaping of one character as in Go encoding/json (HTML-safe mode). -/
def jsonEscapeChar (c : Char) : String :=
  if c = '"' then "\\\""
  else if c = '\\' then "\\\\"
  else if c = '\n' then "\\n"
  else if c = '\r' then "\\r"
  else if c = '\t' then "\\t"
  else if c = '<' then "\\u003c"
  else if c = '>' then "\\u003e"
  else if c = '&' then "\\u0026"
  else if c.toNat < 32 then
    "\\u00" ++ String.mk [hexChar (c.toNat / 16), hexChar (c.toNat % 16)]
  else String.singleton c

def jsonEscapeStr (s : String) : String :=
  "\"" ++ (s.toList.map jsonEscapeChar).foldl (fun a b => a ++ b) "" ++ "\""

def commaJoin (l : List String) : String :=
  strJoin "," l

mutual

/-- Serialization of one of our JSON values, modelling Go json.Marshal on
the payload shapes the source builds. -/
def jsonEncode : JValue → String
  | .str s => jsonEscapeStr s
  | .jbool b => if b then "true" else "false"
  | .arr a => "[" ++ commaJoin (jsonEncodeList a) ++ "]"
  | .obj o => "\x7b" ++ commaJoin (jsonEncodeObj o) ++ "\x7d"

def jsonEncodeList : List JValue → List String
  | [] => []
  | v :: vs => jsonEncode v :: jsonEncodeList vs

def jsonEncodeObj : List (String × JValue) → List String
  | [] => []
  | (k, v) :: kvs => (jsonEscapeStr k ++ ":" ++ jsonEncode v) :: jsonEncodeObj kvs

end

/-- Embedding of the source function BuildDifyRequest. The second
component of the result is the request after the body ran: the body may
delete an invalid conversation_id from the request metadata map. -/
def buildDifyRequest (req : AgentRequest) (vars : List (String × JValue)) :
    List (String × JValue) × AgentRequest :=
  let payload0 : List (String × JValue) :=
    [("query", .str req.Query), ("user", .str req.SessionID),
     ("response_mode", .str "streaming")]
  let step1 : String × List (String × String) :=
    match aget req.Metadata "conversation_id" with
    | some cid =>
      if ¬ cid = "" then
        (if isUUID cid then (cid, req.Metadata)
         else ("", adel "conversation_id" req.Metadata))
      else ("", req.Metadata)
    | none => ("", req.Metadata)
  let conversationID0 := step1.1
  let md1 := step1.2
  let conversationID :=
    if conversationID0 = "" ∧ isUUID req.SessionID then req.SessionID else conversationID0
  let payload1 :=
    if ¬ conversationID = "" then
      (if isUUID conversationID then aset "conversation_id" (.str conversationID) payload0
       else payload0)
    else payload0
  let inputs := List.foldl (fun acc kv => aset kv.1 kv.2 acc) [] vars
  let payload2 := aset "inputs" (.obj inputs) payload1
  let files : List JValue :=
    req.ImageURLs.map (fun imgURL =>
      if looksLikeBase64Image imgURL then
        JValue.obj [("type", .str "image"), ("transfer_method", .str "local_file"),
                    ("base64_data", .str imgURL)]
      else
        JValue.obj [("type", .str "image"), ("transfer_method", .str "remote_url"),
                    ("url", .str imgURL)])
  let payload3 :=
    if 0 < req.ImageURLs.length then
      (if 0 < files.length then aset "files" (.arr files) payload2 else payload2)
    else payload2
  (payload3, { req with Metadata := md1 })

/-- Embedding of the source function BuildCozeRequest. -/
def buildCozeRequest (req : AgentRequest) (botID : String) : List (String × JValue) :=
  let payload0 : List (String × JValue) :=
    [("bot_id", .str botID), ("user_id", .str req.UserID),
     ("stream", .jbool true), ("auto_save_history", .jbool true)]
  let payload1 :=
    if ¬ req.SessionID = "" then aset "conversation_id" (.str req.SessionID) payload0
    else payload0
  let messages0 : List (List (String × JValue)) := []
  let messages1 :=
    if 0 < req.ImageURLs.length then
      let content0 : List (List (String × JValue)) := []
      let content1 :=
        if ¬ req.Query = "" then
          content0 ++ [[("type", .str "text"), ("text", .str req.Query)]]
        else content0
      let content2 :=
        content1 ++ req.ImageURLs.map (fun imgURL =>
          if looksLikeBase64Image imgURL then
            [("type", .str "image"), ("base64", .str imgURL), ("need_upload", .jbool true)]
          else
            [("type", .str "image"), ("url", .str imgURL)])
      let contentJSON := jsonEncode (.arr (content2.map JValue.obj))
      messages0 ++ [[("role", .str "user"), ("content", .str contentJSON),
                     ("content_type", .str "object_string")]]
    else if ¬ req.Query = "" then
      messages0 ++ [[("role", .str "user"), ("content", .str req.Query),
                     ("content_type", .str "text")]]
    else messages0
  let messages2 :=
    if 0 < req.Contexts.length then req.Contexts ++ messages1 else messages1
  aset "additional_messages" (.arr (messages2.map JValue.obj)) payload1

/-- Embedding of the source function ParseCozeResponse on one decoded
event object: a top-level content string is taken first, then an embedded
delta content string overrides it; conversation and message identifiers
are copied into the response metadata when present as strings. -/
def parseCozeResponse (data : List (String × JValue)) : AgentResponse :=
  let c0 : String :=
    match aget data "content" with
    | some (.str s) => s
    | _ => ""
  let c1 : String :=
    match aget data "delta" with
    | some (.obj d) =>
      (match aget d "content" with
       | some (.str s) => s
       | _ => c0)
    | _ => c0
  let md0 : List (String × String) := []
  let md1 :=
    match aget data "conversation_id" with
    | some (.str s) => aset "conversation_id" s md0
    | _ => md0
  let md2 :=
    match aget data "message_id" with
    | some (.str s) => aset "message_id" s md1
    | _ => md1
  { Content := c1, ImageURLs := [], Metadata := md2 }

/-- Embedding of the source function ParseDifyResponse on one decoded
event object. -/
def parseDifyResponse (data : List (String × JValue)) : AgentResponse :=
  let c0 : String :=
    match aget data "answer" with
    | some (.str s) => s
    | _ => ""
  let imgs : List String :=
    match aget data "files" with
    | some (.arr fs) =>
      fs.filterMap (fun f =>
        match f with
        | .obj fm =>
          (match aget fm "type" with
           | some (.str ty) =>
             if ty = "image" then
               (match aget fm "url" with
                | some (.str u) => some u
                | _ => none)
             else none
           | _ => none)
        | _ => none)
    | _ => []
  let md0 : List (String × String) := []
  let md1 :=
    match aget data "conversation_id" with
    | some (.str s) => aset "conversation_id" s md0
    | _ => md0
  let md2 :=
    match aget data "message_id" with
    | some (.str s) => aset "message_id" s md1
    | _ => md1
  { Content := c0, ImageURLs := imgs, Metadata := md2 }

/-- Fallback answer substituted by both streaming assemblers when the
accumulated text is empty at stream end. -/
def fallbackAnswer : String := "抱歉，我没有理解您的问题。"

/-- One step of the Dify streaming assembly loop (dify agent Chat): the
state carries the accumulated text and the conversation and message
identifiers seen so far. An answer string is appended; a non-empty
identifier overwrites the stored one; an empty identifier is ignored. -/
def difyStep (st : String × String × String) (ev : List (String × JValue)) :
    String × String × String :=
  let full :=
    match aget ev "answer" with
    | some (.str a) => st.1 ++ a
    | _ => st.1
  let cid :=
    match aget ev "conversation_id" with
    | some (.str c) => if ¬ c = "" then c else st.2.1
    | _ => st.2.1
  let mid :=
    match aget ev "message_id" with
    | some (.str c) => if ¬ c = "" then c else st.2.2
    | _ => st.2.2
  (full, cid, mid)

/-- Final response packing shared by both agent Chat functions: empty
accumulated text is replaced by the fallback answer, and only non-empty
identifiers are stored into the response metadata. -/
def packChatResponse (st : String × String × String) : AgentResponse :=
  let response := if st.1 = "" then fallbackAnswer else st.1
  let md0 : List (String × String) := []
  let md1 := if ¬ st.2.1 = "" then aset "conversation_id" st.2.1 md0 else md0
  let md2 := if ¬ st.2.2 = "" then aset "message_id" st.2.2 md1 else md1
  { Content := response, ImageURLs := [], Metadata := md2 }

/-- Streaming assembly of the Dify agent Chat over the decoded event
objects of the response stream. -/
def difyAssemble (events : List (List (String × JValue))) : AgentResponse :=
  packChatResponse (List.foldl difyStep ("", "", "") events)

/-- One step of the Coze streaming assembly loop (coze agent Chat): the
event is parsed by ParseCozeResponse; non-empty content is appended; an
identifier present in the parsed metadata overwrites the stored one, even
when its value is the empty string. -/
def cozeStep (st : String × String × String) (ev : List (String × JValue)) :
    String × String × String :=
  let r := parseCozeResponse ev
  let full := if ¬ r.Content = "" then st.1 ++ r.Content else st.1
  let cid :=
    match aget r.Metadata "conversation_id" with
    | some c => c
    | none => st.2.1
  let mid :=
    match aget r.Metadata "message_id" with
    | some c => c
    | none => st.2.2
  (full, cid, mid)

/-- Streaming assembly of the Coze agent Chat over the decoded event
objects of the response stream. -/
def cozeAssemble (events : List (List (String × JValue))) : AgentResponse :=
  packChatResponse (List.foldl cozeStep ("", "", "") events)

/-- UTF-8 bytes of a Go string, for the byte-oriented chunking step. -/
def strBytes (s : String) : List Nat :=
  s.toUTF8.toList.map (fun b => b.toNat)

/-- Dispatch formatting of pipeline sendToPlatform: the WeCom platform
receives a text reply split into chunks of at most 2048 bytes; every
other platform receives one send of the full content. -/
def sendsFor (platform : String) (msg : Message) : List (List Nat) :=
  if platform = PlatformLark then [strBytes msg.Content]
  else if platform = PlatformWeCom then
    (if msg.MessageType = "text" then splitLongText (strBytes msg.Content) 2048
     else [strBytes msg.Content])
  else [strBytes msg.Content]

/-- Outcome of processing one message in the pipeline. The panic outcome
marks a nil-pointer dereference: FromAgentResponse invoked on a nil
response aborts the goroutine before any reply is produced. -/
inductive PipeOutcome where
  | panic
  | noSender
  | dispatched (sends : List (List Nat)) (reply : Message)
deriving DecidableEq, Repr

/-- Embedding of pipeline processMessage. The two Chat invocations are
abstracted by their outcomes (difyResult, cozeResult); the enabled flags
come from the configuration; registered states whether a sender is
registered for the message platform. The body mirrors the source:
normalize, convert, invoke with one fallback hop, synthesize an error
reply on a recorded error, convert back, reconcile the conversation
identifier, and dispatch. -/
def processMessage (difyEnabled cozeEnabled : Bool)
    (difyResult cozeResult : Except String AgentResponse)
    (registered : Bool) (msg : Message) : PipeOutcome :=
  let msg1 := normalizeContent msg
  let inv : Option AgentResponse × Option String :=
    if difyEnabled then
      match difyResult with
      | .ok r => (some r, none)
      | .error e =>
        if cozeEnabled then
          match cozeResult with
          | .ok r => (some r, none)
          | .error e2 => (none, some e2)
        else (none, some e)
    else if cozeEnabled then
      match cozeResult with
      | .ok r => (some r, none)
      | .error e => (none, some e)
    else (none, none)
  let agentResp : Option AgentResponse :=
    match inv.2 with
    | some e => some { Content := "处理消息时出错: " ++ e, ImageURLs := [], Metadata := [] }
    | none => inv.1
  match agentResp with
  | none => .panic
  | some ar =>
    let responseMsg := fromAgentResponse ar msg1
    let recon : Message × Message :=
      match aget ar.Metadata "conversation_id" with
      | some cid =>
        if ¬ cid = "" then
          (if isUUID cid then
            ({ msg1 with Metadata := aset "conversation_id" cid msg1.Metadata },
             { responseMsg with Metadata := aset "conversation_id" cid responseMsg.Metadata })
          else
            ({ msg1 with Metadata := adel "conversation_id" msg1.Metadata },
             { responseMsg with Metadata := adel "conversation_id" responseMsg.Metadata }))
        else (msg1, responseMsg)
      | none => (msg1, responseMsg)
    let responseMsg2 := recon.2
    if registered then .dispatched (sendsFor msg.Platform responseMsg2) responseMsg2
    else .noSender

/-- Boolean test of whether an optional payload entry is a string holding
a valid UUID (absent entries pass vacuously). -/
def uuidStrEntry (o : Option JValue) : Bool :=
  match o with
  | none => true
  | some (.str s) => isUUID s
  | some _ => false

/-- Boolean test of whether one of the seven boundary characters of
SplitLongText, in its UTF-8 encoding, ends at byte position j (1-based)
of the text. -/
def cjkBoundaryEndsAt (text : List Nat) (j : Nat) : Bool :=
  (1 ≤ j ∧ isBoundaryByte (text.getD (j - 1) 0)) ∨
  (3 ≤ j ∧
    ((text.getD (j - 3) 0 = 227 ∧ text.getD (j - 2) 0 = 128 ∧ text.getD (j - 1) 0 = 130) ∨
     (text.getD (j - 3) 0 = 239 ∧ text.getD (j - 2) 0 = 188 ∧ text.getD (j - 1) 0 = 129) ∨
     (text.getD (j - 3) 0 = 239 ∧ text.getD (j - 2) 0 = 188 ∧ text.getD (j - 1) 0 = 159)))

/-- UTF-8 bytes of the text "abcd。xyz": the CJK full stop 。 occupies
bytes 227, 128, 130 at positions 5 to 7. -/
def c5text : List Nat := [97, 98, 99, 100, 227, 128, 130, 120, 121, 122]

/-- Coze event stream delivering the answer X as a delta event followed
by a terminal event carrying the full content X. -/
def c3events : List (List (String × JValue)) :=
  [[("delta", JValue.obj [("content", JValue.str "X")])],
   [("content", JValue.str "X")]]

/-- Coze event stream delivering a non-empty conversation identifier and
then an event whose conversation_id field is the empty string. -/
def c4events : List (List (String × JValue)) :=
  [[("conversation_id", JValue.str "A")],
   [("conversation_id", JValue.str "")]]

/-- Agent request whose session identifier is a platform chat handle, not
a UUID. -/
def cozeReqCx : AgentRequest :=
  { Query := "hi", ImageURLs := [], SessionID := "oc_123", UserID := "u1",
    SystemPrompt := "", Contexts := [], Metadata := [] }

/-- Image message whose metadata carries both a media_id and a platform
entry differing from the message platform tag. -/
def c7msg : Message :=
  { Platform := "wecom", SessionID := "s", UserID := "u", Content := "",
    MessageType := "image", Metadata := [("media_id", "m1"), ("platform", "foo")],
    Timestamp := 0 }

/-- Plain inbound text message on the Lark platform. -/
def pipeMsgCx : Message :=
  { Platform := "lark", SessionID := "s1", UserID := "u1", Content := "hi",
    MessageType := "text", Metadata := [], Timestamp := 0 }

/-- Identifier update of the Dify assembly loop for one event field: a
non-empty string value yields the new identifier, all else is ignored. -/
def difyIdOf (key : String) (ev : List (String × JValue)) : Option String :=
  match aget ev key with
  | some (JValue.str c) => if c = "" then none else some c
  | _ => none

/-- Conversation identifiers extracted by the Dify assembly loop: one
entry per event carrying a non-empty conversation_id string. -/
def difyCids (events : List (List (String × JValue))) : List String :=
  events.filterMap (difyIdOf "conversation_id")

/-- Message identifiers extracted by the Dify assembly loop. -/
def difyMids (events : List (List (String × JValue))) : List String :=
  events.filterMap (difyIdOf "message_id")

/-- Identifier update of the Coze assembly loop for one event field: any
value present in the parsed metadata, empty or not, yields the update. -/
def cozeIdOf (key : String) (ev : List (String × JValue)) : Option String :=
  aget (parseCozeResponse ev).Metadata key

/-- Conversation identifiers extracted by the Coze assembly loop: one
entry per event whose parsed metadata carries the field, empty or not. -/
def cozeCids (events : List (List (String × JValue))) : List String :=
  events.filterMap (cozeIdOf "conversation_id")

/-- Message identifiers extracted by the Coze assembly loop. -/
def cozeMids (events : List (List (String × JValue))) : List String :=
  events.filterMap (cozeIdOf "message_id")

/-!
Claim theorems.
-/

/-- C6. For every byte text and every maxLen (zero and negative values
included, which fall back to the default 2048), the chunks returned by
SplitLongText concatenate back to the text exactly, and a text no longer
than maxLen is returned as the single-element sequence. -/
theorem splitLongText_roundtrip (t : List Nat) (maxLen : Int) :
    (splitLongText t maxLen).flatten = t ∧
      ((t.length : Int) ≤ maxLen → splitLongText t maxLen = [t]) := by
  have hm : 0 < (if maxLen ≤ 0 then 2048 else maxLen.toNat) := by
    by_cases h : maxLen ≤ 0
    · rw [if_pos h]; omega
    · rw [if_neg h]; omega
  constructor
  · simp only [splitLongText]
    by_cases hle : t.length ≤ (if maxLen ≤ 0 then 2048 else maxLen.toNat)
    · rw [if_pos hle]
      simp
    · rw [if_neg hle]
      have h2 := splitLoop_flatten t _ hm t.length 0 (by omega)
      simpa using h2
  · intro h
    simp only [splitLongText]
    have hle : t.length ≤ (if maxLen ≤ 0 then 2048 else maxLen.toNat) := by
      by_cases h0 : maxLen ≤ 0
      · rw [if_pos h0]; omega
      · rw [if_neg h0]; omega
    rw [if_pos hle]

/-- C6 witness: concrete instance with both conjuncts evaluated. -/
theorem splitLongText_roundtrip_witness :
    (splitLongText [97] 5).flatten = [97] ∧ splitLongText [97] 5 = [[97]] :=
  ⟨(splitLongText_roundtrip [97] 5).1,
   (splitLongText_roundtrip [97] 5).2 (by decide)⟩

/-- C5. On the text "abcd。xyz" with maxLen 8, the CJK full stop ends at
byte position 7, inside the back half (positions 5 to 8) of the first
window, yet the first chunk is cut at the raw boundary 8, splitting the
character: the source compares the single byte text[i-1] against the
multi-byte rune literals, so the three CJK boundary characters can never
match, contradicting the claimed boundary rule. -/
theorem splitLongText_misses_cjk_boundary :
    splitLongText c5text 8 = [[97, 98, 99, 100, 227, 128, 130, 120], [121, 122]] ∧
    cjkBoundaryEndsAt c5text 7 = true ∧ 8 / 2 < 7 ∧ 7 ≤ 8 ∧
    cjkBoundaryEndsAt c5text 8 = false := by
  decide

/-- C3. The Coze streaming assembler appends the extracted content of
every event: a delta event carrying X followed by a terminal event
carrying the full content X assembles to XX, not X — the full-replacement
event is double-counted. -/
theorem cozeAssemble_double_counts_full_content :
    (parseCozeResponse (c3events.getD 0 [])).Content = "X" ∧
    (parseCozeResponse (c3events.getD 1 [])).Content = "X" ∧
    (cozeAssemble c3events).Content = "XX" := by
  decide

/-- C1. With no agent backend configured (both flags false), the pipeline
reaches FromAgentResponse with a nil response and panics: no reply is
dispatched even though a sender is registered. With a backend configured
and failing, the synthesized error reply embedding the failure reason is
dispatched as the claim states, so the unconfigured case is the slip. -/
theorem processMessage_unconfigured_agents_panic :
    processMessage false false (Except.error "boom") (Except.error "boom") true pipeMsgCx
      = PipeOutcome.panic ∧
    ∃ sends reply,
      processMessage true true (Except.error "boom") (Except.error "boom") true pipeMsgCx
        = PipeOutcome.dispatched sends reply ∧
      reply.Content = "处理消息时出错: boom" := by
  refine ⟨rfl, ?_⟩
  refine ⟨_, _, rfl, ?_⟩
  rfl

/-- Conversation-identifier gate of BuildDifyRequest: whatever candidate
string the resolution steps produced, the payload entry is only written
after a final isUUID check, so the entry is always a valid UUID string. -/
theorem uuidGate {cID : String} (p0 : List (String × JValue))
    (hp0 : aget p0 "conversation_id" = none) :
    uuidStrEntry (aget
      (if ¬ cID = "" then
        (if isUUID cID then aset "conversation_id" (JValue.str cID) p0 else p0)
       else p0) "conversation_id") = true := by
  by_cases h1 : ¬ cID = ""
  · rw [if_pos h1]
    by_cases h2 : isUUID cID
    · rw [if_pos h2, aget_aset_self]
      simpa [uuidStrEntry] using h2
    · rw [if_neg h2, hp0]
      rfl
  · rw [if_neg h1, hp0]
    rfl

/-- C2 counterexample: BuildCozeRequest forwards the non-UUID platform
session handle oc_123 as the conversation_id payload entry. -/
theorem buildCozeRequest_forwards_non_uuid_session :
    aget (buildCozeRequest cozeReqCx "bot1") "conversation_id"
      = some (JValue.str "oc_123") ∧
    isUUID "oc_123" = false := by
  constructor
  · rfl
  · decide

/-- C2 amended. BuildDifyRequest includes a conversation_id entry only
when its value is a valid UUID; BuildCozeRequest includes a
conversation_id entry exactly when the request session identifier is
non-empty, forwarding that identifier verbatim without UUID validation. -/
theorem buildRequests_conversation_id_policy (req : AgentRequest)
    (vars : List (String × JValue)) (botID : String) :
    uuidStrEntry (aget (buildDifyRequest req vars).1 "conversation_id") = true ∧
    aget (buildCozeRequest req botID) "conversation_id"
      = (if req.SessionID = "" then none else some (JValue.str req.SessionID)) := by
  constructor
  · simp only [buildDifyRequest]
    split
    · split
      · rw [aget_aset_ne _ _ _ _ (by decide), aget_aset_ne _ _ _ _ (by decide)]
        exact uuidGate _ (by rfl)
      · rw [aget_aset_ne _ _ _ _ (by decide)]
        exact uuidGate _ (by rfl)
    · rw [aget_aset_ne _ _ _ _ (by decide)]
      exact uuidGate _ (by rfl)
  · simp only [buildCozeRequest]
    rw [aget_aset_ne _ _ _ _ (by decide)]
    by_cases hs : req.SessionID = ""
    · rw [if_pos hs]
      have : ¬ ¬ req.SessionID = "" := by simp [hs]
      rw [if_neg this]
      rfl
    · rw [if_neg hs, if_pos hs]
      rw [aget_aset_self]

theorem getD_getLast?_cons {α : Type} (a d : α) (l : List α) :
    ((a :: l).getLast?.getD d) = l.getLast?.getD a := by
  cases l with
  | nil => rfl
  | cons b t =>
    rw [List.getLast?_cons_cons]
    have h : (b :: t).getLast?.isSome := by
      rw [List.getLast?_isSome]
      simp
    obtain ⟨x, hx⟩ := Option.isSome_iff_exists.mp h
    rw [hx]
    rfl

theorem difyStep_cid (st : String × String × String) (ev : List (String × JValue)) :
    (difyStep st ev).2.1 = (difyIdOf "conversation_id" ev).getD st.2.1 := by
  simp only [difyStep, difyIdOf]
  rcases h : aget ev "conversation_id" with _ | v
  · rfl
  · cases v with
    | str c =>
      by_cases hc : c = ""
      · simp [hc]
      · simp [hc]
    | jbool b => rfl
    | arr a => rfl
    | obj o => rfl

theorem difyStep_mid (st : String × String × String) (ev : List (String × JValue)) :
    (difyStep st ev).2.2 = (difyIdOf "message_id" ev).getD st.2.2 := by
  simp only [difyStep, difyIdOf]
  rcases h : aget ev "message_id" with _ | v
  · rfl
  · cases v with
    | str c =>
      by_cases hc : c = ""
      · simp [hc]
      · simp [hc]
    | jbool b => rfl
    | arr a => rfl
    | obj o => rfl

theorem cozeStep_cid (st : String × String × String) (ev : List (String × JValue)) :
    (cozeStep st ev).2.1 = (cozeIdOf "conversation_id" ev).getD st.2.1 := by
  simp only [cozeStep, cozeIdOf]
  rcases h : aget (parseCozeResponse ev).Metadata "conversation_id" with _ | c
  · rfl
  · rfl

theorem cozeStep_mid (st : String × String × String) (ev : List (String × JValue)) :
    (cozeStep st ev).2.2 = (cozeIdOf "message_id" ev).getD st.2.2 := by
  simp only [cozeStep, cozeIdOf]
  rcases h : aget (parseCozeResponse ev).Metadata "message_id" with _ | c
  · rfl
  · rfl

/-- Both assembly loops update an identifier cell the same way: the cell
after the fold holds the last extracted value, the initial value when
none was extracted. -/
theorem foldl_idLast (step : (String × String × String) → List (String × JValue) → String × String × String)
    (idOf : List (String × JValue) → Option String)
    (proj : String × String × String → String)
    (hstep : ∀ st ev, proj (step st ev) = (idOf ev).getD (proj st)) :
    ∀ (events : List (List (String × JValue))) (st : String × String × String),
      proj (List.foldl step st events) = (events.filterMap idOf).getLast?.getD (proj st) := by
  intro events
  induction events with
  | nil => intro st; rfl
  | cons e t ih =>
    intro st
    rw [List.foldl_cons, ih (step st e), hstep st e]
    rcases h : idOf e with _ | x
    · rw [List.filterMap_cons_none h]
      rfl
    · rw [List.filterMap_cons_some h]
      rw [getD_getLast?_cons]
      rfl

theorem packChat_cid (st : String × String × String) :
    aget (packChatResponse st).Metadata "conversation_id"
      = (if st.2.1 = "" then none else some st.2.1) := by
  simp only [packChatResponse]
  by_cases h2 : ¬ st.2.2 = ""
  · rw [if_pos h2, aget_aset_ne _ _ _ _ (by decide)]
    by_cases h1 : ¬ st.2.1 = ""
    · rw [if_pos h1, aget_aset_self, if_neg h1]
    · rw [if_neg h1, if_pos (not_not.mp h1)]
      rfl
  · rw [if_neg h2]
    by_cases h1 : ¬ st.2.1 = ""
    · rw [if_pos h1, aget_aset_self, if_neg h1]
    · rw [if_neg h1, if_pos (not_not.mp h1)]
      rfl

theorem packChat_mid (st : String × String × String) :
    aget (packChatResponse st).Metadata "message_id"
      = (if st.2.2 = "" then none else some st.2.2) := by
  simp only [packChatResponse]
  by_cases h2 : ¬ st.2.2 = ""
  · rw [if_pos h2, aget_aset_self, if_neg h2]
  · rw [if_neg h2, if_pos (not_not.mp h2)]
    by_cases h1 : ¬ st.2.1 = ""
    · rw [if_pos h1, aget_aset_ne _ _ _ _ (by decide)]
      rfl
    · rw [if_neg h1]
      rfl

/-- Every identifier the Dify loop extracts is non-empty. -/
theorem difyIdOf_ne_empty (key x : String) (ev : List (String × JValue))
    (h : difyIdOf key ev = some x) : ¬ x = "" := by
  rcases haget : aget ev key with _ | v
  · simp only [difyIdOf, haget] at h
    exact absurd h (by simp)
  · cases v with
    | str c =>
      simp only [difyIdOf, haget] at h
      by_cases hc : c = ""
      · rw [if_pos hc] at h
        exact absurd h (by simp)
      · rw [if_neg hc] at h
        have hx : c = x := Option.some.inj h
        rw [← hx]
        exact hc
    | jbool b =>
      simp only [difyIdOf, haget] at h
      exact absurd h (by simp)
    | arr a =>
      simp only [difyIdOf, haget] at h
      exact absurd h (by simp)
    | obj o =>
      simp only [difyIdOf, haget] at h
      exact absurd h (by simp)

/-- C4 amended. In both streaming assemblers the retained identifier is
the last one delivered, not the first: for Dify the final response
carries the last non-empty conversation and message identifiers of the
stream (empty values never overwrite); for Coze the final response
carries the last identifier present in a parsed event, so a later event
carrying an empty identifier clears a previously seen non-empty one. -/
theorem assemble_identifier_last_wins (evD evC : List (List (String × JValue))) :
    aget (difyAssemble evD).Metadata "conversation_id" = (difyCids evD).getLast? ∧
    aget (difyAssemble evD).Metadata "message_id" = (difyMids evD).getLast? ∧
    aget (cozeAssemble evC).Metadata "conversation_id"
      = (match (cozeCids evC).getLast? with
         | some c => if c = "" then none else some c
         | none => none) ∧
    aget (cozeAssemble evC).Metadata "message_id"
      = (match (cozeMids evC).getLast? with
         | some c => if c = "" then none else some c
         | none => none) := by
  have hd1 : (List.foldl difyStep ("", "", "") evD).2.1
      = (evD.filterMap (difyIdOf "conversation_id")).getLast?.getD "" :=
    foldl_idLast difyStep (difyIdOf "conversation_id") (fun st => st.2.1)
      difyStep_cid evD ("", "", "")
  have hd2 : (List.foldl difyStep ("", "", "") evD).2.2
      = (evD.filterMap (difyIdOf "message_id")).getLast?.getD "" :=
    foldl_idLast difyStep (difyIdOf "message_id") (fun st => st.2.2)
      difyStep_mid evD ("", "", "")
  have hc1 : (List.foldl cozeStep ("", "", "") evC).2.1
      = (evC.filterMap (cozeIdOf "conversation_id")).getLast?.getD "" :=
    foldl_idLast cozeStep (cozeIdOf "conversation_id") (fun st => st.2.1)
      cozeStep_cid evC ("", "", "")
  have hc2 : (List.foldl cozeStep ("", "", "") evC).2.2
      = (evC.filterMap (cozeIdOf "message_id")).getLast?.getD "" :=
    foldl_idLast cozeStep (cozeIdOf "message_id") (fun st => st.2.2)
      cozeStep_mid evC ("", "", "")
  refine ⟨?_, ?_, ?_, ?_⟩
  · rw [difyAssemble, packChat_cid, hd1, difyCids]
    rcases hL : (evD.filterMap (difyIdOf "conversation_id")).getLast? with _ | x
    · rfl
    · obtain ⟨e, -, he⟩ := List.mem_filterMap.mp
        (List.mem_of_mem_getLast? (show x ∈ _ by rw [hL]; rfl))
      have hx : ¬ x = "" := difyIdOf_ne_empty "conversation_id" x e he
      simp only [Option.getD_some]
      rw [if_neg hx]
  · rw [difyAssemble, packChat_mid, hd2, difyMids]
    rcases hL : (evD.filterMap (difyIdOf "message_id")).getLast? with _ | x
    · rfl
    · obtain ⟨e, -, he⟩ := List.mem_filterMap.mp
        (List.mem_of_mem_getLast? (show x ∈ _ by rw [hL]; rfl))
      have hx : ¬ x = "" := difyIdOf_ne_empty "message_id" x e he
      simp only [Option.getD_some]
      rw [if_neg hx]
  · rw [cozeAssemble, packChat_cid, hc1, cozeCids]
    rcases hL : (evC.filterMap (cozeIdOf "conversation_id")).getLast? with _ | x
    · rfl
    · rfl
  · rw [cozeAssemble, packChat_mid, hc2, cozeMids]
    rcases hL : (evC.filterMap (cozeIdOf "message_id")).getLast? with _ | x
    · rfl
    · rfl

/-- C4 counterexample: in the Coze assembler a first event delivering the
non-empty conversation identifier A followed by an event whose
conversation_id is the empty string yields a final response without any
conversation identifier — the first non-empty identifier is not retained
and is overwritten by an empty one. -/
theorem cozeAssemble_drops_first_identifier :
    aget (parseCozeResponse (c4events.getD 0 [])).Metadata "conversation_id" = some "A" ∧
    aget (cozeAssemble c4events).Metadata "conversation_id" = none := by
  decide

/-- C9. For both streaming assemblers, the content of the final response
is never empty and the image list is always empty: when the accumulated
text at stream end is empty, the fixed fallback answer is substituted. -/
theorem assemble_nonempty_fallback (evD evC : List (List (String × JValue))) :
    ¬ (difyAssemble evD).Content = "" ∧ (difyAssemble evD).ImageURLs = [] ∧
    ((List.foldl difyStep ("", "", "") evD).1 = "" →
      (difyAssemble evD).Content = fallbackAnswer) ∧
    ¬ (cozeAssemble evC).Content = "" ∧ (cozeAssemble evC).ImageURLs = [] ∧
    ((List.foldl cozeStep ("", "", "") evC).1 = "" →
      (cozeAssemble evC).Content = fallbackAnswer) := by
  have key : ∀ st : String × String × String,
      ¬ (packChatResponse st).Content = "" ∧
        (st.1 = "" → (packChatResponse st).Content = fallbackAnswer) := by
    intro st
    simp only [packChatResponse]
    by_cases h : st.1 = ""
    · rw [if_pos h]
      exact ⟨by decide, fun _ => rfl⟩
    · rw [if_neg h]
      exact ⟨h, fun hc => absurd hc h⟩
  exact ⟨(key _).1, rfl, (key _).2, (key _).1, rfl, (key _).2⟩

/-- C9 witness: the empty stream assembles to the fallback answer. -/
theorem assemble_nonempty_fallback_witness :
    (difyAssemble []).Content = fallbackAnswer ∧
    (cozeAssemble []).Content = fallbackAnswer :=
  ⟨(assemble_nonempty_fallback [] []).2.2.1 rfl,
   (assemble_nonempty_fallback [] []).2.2.2.2.2 rfl⟩

/-- C8. FromAgentResponse inherits platform, session and user from the
original message; the message type is text unless images are present, in
which case the content is the first image and the remaining images are
comma-joined under the additional_images metadata key; all other lookups
into the reply metadata agree with the response metadata. -/
theorem fromAgentResponse_spec (resp : AgentResponse) (orig : Message) :
    (fromAgentResponse resp orig).Platform = orig.Platform ∧
    (fromAgentResponse resp orig).SessionID = orig.SessionID ∧
    (fromAgentResponse resp orig).UserID = orig.UserID ∧
    (fromAgentResponse resp orig).MessageType
      = (if resp.ImageURLs.isEmpty then "text" else "image") ∧
    (fromAgentResponse resp orig).Content
      = (match resp.ImageURLs with
         | [] => resp.Content
         | img0 :: _ => img0) ∧
    ∀ k, aget (fromAgentResponse resp orig).Metadata k
      = (if 2 ≤ resp.ImageURLs.length ∧ k = "additional_images" then
          some (strJoin "," (resp.ImageURLs.drop 1))
        else aget resp.Metadata k) := by
  rcases hi : resp.ImageURLs with _ | ⟨img0, rest⟩
  · refine ⟨?_, ?_, ?_, ?_, ?_, ?_⟩
    · simp [fromAgentResponse, hi]
    · simp [fromAgentResponse, hi]
    · simp [fromAgentResponse, hi]
    · simp [fromAgentResponse, hi]
    · simp [fromAgentResponse, hi]
    · intro k
      have hc : ¬ (2 ≤ ([] : List String).length ∧ k = "additional_images") := by
        simp
      rw [if_neg hc]
      simp [fromAgentResponse, hi]
  · rcases hr : rest with _ | ⟨r1, rtl⟩
    · refine ⟨?_, ?_, ?_, ?_, ?_, ?_⟩
      · simp [fromAgentResponse, hi, hr]
      · simp [fromAgentResponse, hi, hr]
      · simp [fromAgentResponse, hi, hr]
      · simp [fromAgentResponse, hi, hr]
      · simp [fromAgentResponse, hi, hr]
      · intro k
        have hc : ¬ (2 ≤ [img0].length ∧ k = "additional_images") := by
          simp
        rw [if_neg hc]
        simp [fromAgentResponse, hi, hr]
    · refine ⟨?_, ?_, ?_, ?_, ?_, ?_⟩
      · simp [fromAgentResponse, hi, hr]
      · simp [fromAgentResponse, hi, hr]
      · simp [fromAgentResponse, hi, hr]
      · simp [fromAgentResponse, hi, hr]
      · simp [fromAgentResponse, hi, hr]
      · intro k
        by_cases hk : k = "additional_images"
        · have hc : 2 ≤ (img0 :: r1 :: rtl).length ∧ k = "additional_images" :=
            ⟨by simp only [List.length_cons]; omega, hk⟩
          rw [if_pos hc, hk]
          simp [fromAgentResponse, hi, hr, aget_aset_self]
        · have hc : ¬ (2 ≤ (img0 :: r1 :: rtl).length ∧ k = "additional_images") := by
            intro hc2
            exact hk hc2.2
          rw [if_neg hc]
          simp only [fromAgentResponse, hi, hr, List.isEmpty_cons, Bool.false_eq_true,
            if_false]
          rw [aget_aset_ne _ _ _ _ (fun hc2 => hk hc2.symm)]


/-- Association-list lookup of an absent key yields none. -/
theorem aget_eq_none {α : Type} (l : List (String × α)) (k : String)
    (h : ¬ k ∈ l.map Prod.fst) : aget l k = none := by
  induction l with
  | nil => rfl
  | cons p t ih =>
    rw [List.map_cons] at h
    have h1 : ¬ p.1 = k := fun hc => h (by rw [hc]; exact List.mem_cons_self _ _)
    have h2 : ¬ k ∈ t.map Prod.fst := fun hc => h (List.mem_cons_of_mem _ hc)
    rw [aget, if_neg h1]
    exact ih h2

theorem copyMetaLoop_cons (init : List (String × String)) (p : String × String)
    (t : List (String × String)) :
    copyMetaLoop init (p :: t)
      = copyMetaLoop
          (if p.1 = "conversation_id" then
            (if isUUID p.2 then aset p.1 p.2 init else init)
           else aset p.1 p.2 init) t := rfl

/-- Lookup characterization of the metadata copy loop of ToAgentRequest
for a key absent from the source: the lookup falls through to the
initial accumulator. -/
theorem copyMetaLoop_aget_none (k : String) : ∀ (src init : List (String × String)),
    aget src k = none → aget (copyMetaLoop init src) k = aget init k := by
  intro src
  induction src with
  | nil => intro init _; rfl
  | cons p t ih =>
    intro init h
    obtain ⟨k0, v0⟩ := p
    have hk0 : ¬ k0 = k := by
      intro hc
      rw [aget, if_pos hc] at h
      exact absurd h (by simp)
    have ht : aget t k = none := by
      rw [aget, if_neg hk0] at h
      exact h
    rw [copyMetaLoop_cons, ih _ ht]
    by_cases hcid : k0 = "conversation_id"
    · by_cases hu : isUUID v0
      · simp only
        rw [if_pos hcid, if_pos hu, aget_aset_ne _ _ _ _ hk0]
      · simp only
        rw [if_pos hcid, if_neg hu]
    · simp only
      rw [if_neg hcid, aget_aset_ne _ _ _ _ hk0]

/-- Lookup characterization of the metadata copy loop of ToAgentRequest
for a key present in the source with distinct keys: the entry is copied,
except an invalid conversation_id whose lookup falls through to the
initial accumulator. -/
theorem copyMetaLoop_aget_some (k v : String) : ∀ (src init : List (String × String)),
    (src.map Prod.fst).Nodup → aget src k = some v →
    aget (copyMetaLoop init src) k
      = (if k = "conversation_id" ∧ ¬ isUUID v then aget init k else some v) := by
  intro src
  induction src with
  | nil =>
    intro init _ h
    exact absurd h (by simp [aget])
  | cons p t ih =>
    intro init hnd h
    obtain ⟨k0, v0⟩ := p
    rw [List.map_cons, List.nodup_cons] at hnd
    obtain ⟨hp, hndt⟩ := hnd
    by_cases hpk : k0 = k
    · have hv : v0 = v := by
        rw [aget, if_pos hpk] at h
        exact Option.some.inj h
      subst hv
      subst hpk
      have hkt : ¬ k0 ∈ t.map Prod.fst := hp
      have ht : aget t k0 = none := aget_eq_none t k0 hkt
      rw [copyMetaLoop_cons, copyMetaLoop_aget_none k0 t _ ht]
      by_cases hcid : k0 = "conversation_id"
      · by_cases hu : isUUID v0
        · simp only
          rw [if_pos hcid, if_pos hu, aget_aset_self]
          have hc : ¬ (k0 = "conversation_id" ∧ ¬ isUUID v0) := fun hc2 => hc2.2 hu
          rw [if_neg hc]
        · simp only
          rw [if_pos hcid, if_neg hu]
          have hc : k0 = "conversation_id" ∧ ¬ isUUID v0 := ⟨hcid, hu⟩
          rw [if_pos hc]
      · simp only
        rw [if_neg hcid, aget_aset_self]
        have hc : ¬ (k0 = "conversation_id" ∧ ¬ isUUID v0) := fun hc2 => hcid hc2.1
        rw [if_neg hc]
    · have ht : aget t k = some v := by
        rw [aget, if_neg hpk] at h
        exact h
      rw [copyMetaLoop_cons, ih _ hndt ht]
      have hinit : aget
          (if k0 = "conversation_id" then
            (if isUUID v0 then aset k0 v0 init else init)
           else aset k0 v0 init) k = aget init k := by
        by_cases hcid : k0 = "conversation_id"
        · by_cases hu : isUUID v0
          · rw [if_pos hcid, if_pos hu, aget_aset_ne _ _ _ _ hpk]
          · rw [if_pos hcid, if_neg hu]
        · rw [if_neg hcid, aget_aset_ne _ _ _ _ hpk]
      rw [hinit]

/-- Lookup characterization of the copy loop started from the empty
request map, as ToAgentRequest does. -/
theorem copyMetaLoop_aget_nil (k : String) (src : List (String × String))
    (hnd : (src.map Prod.fst).Nodup) :
    aget (copyMetaLoop [] src) k
      = (if k = "conversation_id" then
          (match aget src "conversation_id" with
           | some v => if isUUID v then some v else none
           | none => none)
        else aget src k) := by
  by_cases hk : k = "conversation_id"
  · rw [if_pos hk, hk]
    rcases h : aget src "conversation_id" with _ | v
    · rw [copyMetaLoop_aget_none "conversation_id" src [] h]
      rfl
    · rw [copyMetaLoop_aget_some "conversation_id" v src [] hnd h]
      show (if "conversation_id" = "conversation_id" ∧ ¬ isUUID v then
              aget ([] : List (String × String)) "conversation_id"
            else some v)
          = (if isUUID v then some v else none)
      by_cases hu : isUUID v
      · have hc : ¬ ("conversation_id" = "conversation_id" ∧ ¬ isUUID v) :=
          fun hc2 => hc2.2 hu
        rw [if_neg hc, if_pos hu]
      · have hc : "conversation_id" = "conversation_id" ∧ ¬ isUUID v := ⟨rfl, hu⟩
        rw [if_pos hc, if_neg hu]
        rfl
  · rw [if_neg hk]
    rcases h : aget src k with _ | v
    · rw [copyMetaLoop_aget_none k src [] h]
      rfl
    · rw [copyMetaLoop_aget_some k v src [] hnd h]
      have hc : ¬ (k = "conversation_id" ∧ ¬ isUUID v) := fun hc2 => hk hc2.1
      rw [if_neg hc]

/-- C7 amended. ToAgentRequest copies metadata by lookup: conversation_id
survives exactly when it is a valid UUID; for an image-typed message
carrying a media_id entry, the platform entry of the result is the
message platform tag (overwriting any platform entry of the input); every
other key reads back the input entry. -/
theorem toAgentRequest_metadata_spec (msg : Message) (k : String)
    (hnd : (msg.Metadata.map Prod.fst).Nodup) :
    aget (toAgentRequest msg).Metadata k
      = (if k = "conversation_id" then
          (match aget msg.Metadata "conversation_id" with
           | some v => if isUUID v then some v else none
           | none => none)
        else if msg.MessageType = "image" ∧ (aget msg.Metadata "media_id").isSome ∧
            k = "platform" then
          some msg.Platform
        else aget msg.Metadata k) := by
  by_cases himg : msg.MessageType = "image"
  · rcases hmid : aget msg.Metadata "media_id" with _ | mediaID
    · have hMeta : (toAgentRequest msg).Metadata = copyMetaLoop [] msg.Metadata := by
        simp [toAgentRequest, toAgentRequestH, himg, hmid]
      rw [hMeta, copyMetaLoop_aget_nil k msg.Metadata hnd]
      by_cases hk : k = "conversation_id"
      · rw [if_pos hk, if_pos hk]
      · rw [if_neg hk, if_neg hk]
        have hc : ¬ (msg.MessageType = "image" ∧ (none : Option String).isSome ∧
            k = "platform") := by
          intro hc2
          exact absurd hc2.2.1 (by simp)
        rw [if_neg hc]
    · have hMeta : (toAgentRequest msg).Metadata
          = aset "platform" msg.Platform
              (aset "media_id" mediaID (copyMetaLoop [] msg.Metadata)) := by
        simp [toAgentRequest, toAgentRequestH, himg, hmid]
      rw [hMeta]
      by_cases hk1 : k = "platform"
      · rw [hk1, aget_aset_self]
        have hknc : ¬ ("platform" : String) = "conversation_id" := by decide
        rw [if_neg hknc]
        have hc : msg.MessageType = "image" ∧ (some mediaID).isSome ∧
            ("platform" : String) = "platform" := ⟨himg, rfl, rfl⟩
        rw [if_pos hc]
      · rw [aget_aset_ne _ _ _ _ (fun hc2 => hk1 hc2.symm)]
        by_cases hk2 : k = "media_id"
        · rw [hk2, aget_aset_self]
          have hknc : ¬ ("media_id" : String) = "conversation_id" := by decide
          rw [if_neg hknc]
          have hc : ¬ (msg.MessageType = "image" ∧ (some mediaID).isSome ∧
              ("media_id" : String) = "platform") := by
            intro hc2
            exact absurd hc2.2.2 (by decide)
          rw [if_neg hc, hmid]
        · rw [aget_aset_ne _ _ _ _ (fun hc2 => hk2 hc2.symm),
            copyMetaLoop_aget_nil k msg.Metadata hnd]
          by_cases hk : k = "conversation_id"
          · rw [if_pos hk, if_pos hk]
          · rw [if_neg hk, if_neg hk]
            have hc : ¬ (msg.MessageType = "image" ∧
                (some mediaID).isSome ∧ k = "platform") := by
              intro hc2
              exact hk1 hc2.2.2
            rw [if_neg hc]
  · have hMeta : (toAgentRequest msg).Metadata = copyMetaLoop [] msg.Metadata := by
      simp [toAgentRequest, toAgentRequestH, himg]
    rw [hMeta, copyMetaLoop_aget_nil k msg.Metadata hnd]
    by_cases hk : k = "conversation_id"
    · rw [if_pos hk, if_pos hk]
    · rw [if_neg hk, if_neg hk]
      have hc : ¬ (msg.MessageType = "image" ∧ (aget msg.Metadata "media_id").isSome ∧
          k = "platform") := by
        intro hc2
        exact himg hc2.1
      rw [if_neg hc]

/-- C7 witness: the characterization evaluated on a concrete image
message whose metadata holds media_id and platform entries. -/
theorem toAgentRequest_metadata_spec_witness :
    aget (toAgentRequest c7msg).Metadata "platform" = some "wecom" := by
  rw [toAgentRequest_metadata_spec c7msg "platform" (by decide)]
  decide

/-- C7 counterexample: on an image message whose metadata maps platform
to foo, ToAgentRequest returns metadata whose platform entry is the
message platform tag wecom — the input entry is not copied unchanged. -/
theorem toAgentRequest_overwrites_platform_entry :
    aget c7msg.Metadata "platform" = some "foo" ∧
    aget (toAgentRequest c7msg).Metadata "platform" = some "wecom" := by
  decide

/-- C10. ToAgentRequest never writes to its input message: the message
cell of the heap after the body ran is exactly the input message, all
fields and metadata entries included; every write of the body targets
the request cell. -/
theorem toAgentRequest_preserves_input_metadata (msg : Message) :
    (toAgentRequestH msg).2.msgCell = msg := by
  by_cases himg : msg.MessageType = "image"
  · rcases hmid : aget msg.Metadata "media_id" with _ | mediaID
    · simp [toAgentRequestH, himg, hmid]
    · simp [toAgentRequestH, himg, hmid]
  · simp [toAgentRequestH, himg]

end XiaAdapter
